import Mathlib

/-!
Verification of the structure-generator pipeline (generator.py): residue
encoding, contact-map construction, the permutation-buffer sample builder,
the forward/reverse minimum training loss, the evaluation accuracy, and the
corpus filtering and sample-count resolution of the dataset constructor.
Random draws of the source (permutations produced by the seeded generator)
enter as explicit list parameters constrained by permutation hypotheses;
floating-point arithmetic is modelled over the real numbers, exact rational
arithmetic over the rationals.
-/

namespace StructGen

/-! ### Residue encoding (generator.py, a2id and id2a) -/

/-- The dictionary of a2id (generator.py lines 22-26): one-letter residue
codes to class ids, with V and X both mapped to 19. -/
def a2idTable : List (Char × Nat) :=
  [ ('A', 0), ('R', 1), ('N', 2), ('D', 3), ('C', 4), ('E', 5), ('Q', 6),
    ('G', 7), ('H', 8), ('I', 9), ('L', 10), ('K', 11), ('M', 12), ('F', 13),
    ('P', 14), ('S', 15), ('T', 16), ('W', 17), ('Y', 18), ('V', 19), ('X', 19) ]

/-- a2id (generator.py lines 22-26): uppercase the letter and look it up in
the table; a missing key raises KeyError in Python, modelled as none. -/
def a2id (aa : Char) : Option Nat :=
  a2idTable.lookup aa.toUpper

/-- The list of id2a (generator.py lines 29-33). -/
def id2aTable : List Char :=
  [ 'A', 'R', 'N', 'D', 'C', 'E', 'Q', 'G', 'H', 'I',
    'L', 'K', 'M', 'F', 'P', 'S', 'T', 'W', 'Y', 'V', 'X' ]

/-- id2a (generator.py lines 29-33): index into the list; an out-of-range id
raises IndexError in Python, modelled as none. -/
def id2a (aid : Nat) : Option Char :=
  id2aTable.get? aid

/-- The 20 standard one-letter residue codes in the order of the a2id table
(all table keys except the trailing X). -/
def standardLetters : List Char :=
  [ 'A', 'R', 'N', 'D', 'C', 'E', 'Q', 'G', 'H', 'I',
    'L', 'K', 'M', 'F', 'P', 'S', 'T', 'W', 'Y', 'V' ]

/-! ### Contact map (generator.py, make_contact_map) -/

/-- Entry (i, j) of the pairwise Euclidean distance matrix of
make_contact_map (generator.py line 46): the norm of row j minus row i of
the coordinate array. -/
noncomputable def dist_entry {n : ℕ} (ca : Fin n → Fin 3 → ℝ) (i j : Fin n) : ℝ :=
  Real.sqrt (∑ k : Fin 3, (ca j k - ca i k) ^ 2)

/-- Entry (i, j) of the unmasked contact map (generator.py line 47):
distance strictly below the cutoff. -/
def cont_entry {n : ℕ} (ca : Fin n → Fin 3 → ℝ) (cutoff : ℝ) (i j : Fin n) : Prop :=
  dist_entry ca i j < cutoff

/-- generator.py line 49: rows of masked-out nodes are set to False. -/
def mask_rows {n : ℕ} (m : Fin n → Fin n → Prop) (mask : Fin n → Bool) :
    Fin n → Fin n → Prop :=
  fun i j => if mask i = true then m i j else False

/-- generator.py line 50: columns of masked-out nodes are set to False. -/
def mask_cols {n : ℕ} (m : Fin n → Fin n → Prop) (mask : Fin n → Bool) :
    Fin n → Fin n → Prop :=
  fun i j => if mask j = true then m i j else False

/-- generator.py line 51: the diagonal entries of masked-out nodes are set
back to True. -/
def set_diag_unmasked {n : ℕ} (m : Fin n → Fin n → Prop) (mask : Fin n → Bool) :
    Fin n → Fin n → Prop :=
  fun i j => if mask i = false ∧ i = j then True else m i j

/-- make_contact_map with a mask (generator.py lines 43-53): threshold the
distance matrix, then apply the three mask updates in source order. -/
def make_contact_map {n : ℕ} (ca : Fin n → Fin 3 → ℝ) (mask : Fin n → Bool)
    (cutoff : ℝ) : Fin n → Fin n → Prop :=
  set_diag_unmasked (mask_cols (mask_rows (cont_entry ca cutoff) mask) mask) mask

/-- make_contact_map without a mask (generator.py lines 43-47): just the
thresholded distance matrix. -/
def make_contact_map_nomask {n : ℕ} (ca : Fin n → Fin 3 → ℝ) (cutoff : ℝ) :
    Fin n → Fin n → Prop :=
  cont_entry ca cutoff

/-! ### Sample builder (generator.py, GCNDataset.build_one)

The seeded generator of the source yields three random draws used by the
dummy branch of build_one: the permutation of the padding-id range
(line 132), the buffer permutation my_rand_idxs (line 136), and the random
residues of the padding slots (line 142).  They are passed in as lists,
constrained to be permutations of the ranges the source draws them from. -/

/-- my_dummy_idxs (generator.py lines 132-133): the first
max_buf_size - seq_len entries of a permutation of the padding-id range. -/
def my_dummy_idxs (seqLen M : ℕ) (dummyPerm : List ℕ) : List ℕ :=
  dummyPerm.take (M - seqLen)

/-- my_idxs (generator.py line 139): the real ids 0..seq_len-1 concatenated
with the padding ids, then fancy-indexed by my_rand_idxs. -/
def my_idxs (seqLen M : ℕ) (dummyPerm randPerm : List ℕ) : List ℕ :=
  randPerm.map fun i => (List.range seqLen ++ my_dummy_idxs seqLen M dummyPerm).getD i 0

/-- my_seq after padding (generator.py lines 142-143): the real residue ids
concatenated with the padding residue ids, fancy-indexed by the same
my_rand_idxs. -/
def my_seq_buf (realSeq padSeq randPerm : List ℕ) : List ℕ :=
  randPerm.map fun i => (realSeq ++ padSeq).getD i 0

/-- np.argsort (generator.py line 147): the list of positions of xs sorted
by the value stored at each position (keys here are distinct, so any stable
comparison sort has the same result as the quicksort of numpy). -/
def argsort (xs : List ℕ) : List ℕ :=
  List.insertionSort (fun i j => xs.getD i 0 ≤ xs.getD j 0) (List.range xs.length)

/-- my_gt_idxs (generator.py line 147): the first seq_len entries of the
argsort of the physical buffer. -/
def my_gt_idxs (myIdxs : List ℕ) (seqLen : ℕ) : List ℕ :=
  (argsort myIdxs).take seqLen

/-! ### Training loss (generator.py, train, lines 303 and 329-334) -/

/-- nn.CrossEntropyLoss with mean reduction (generator.py line 303), applied
to a score matrix (one row of class scores per timestep) and a target class
per timestep: mean over timesteps of log-sum-exp of the row minus the score
of the target class. -/
noncomputable def crossEntropyLoss (scores : List (List ℝ)) (target : List ℕ) : ℝ :=
  (((scores.zip target).map fun p =>
      Real.log ((p.1.map Real.exp).sum) - p.1.getD p.2 0).sum) / (target.length : ℝ)

/-- The per-sample training loss (generator.py lines 330-332): the forward
cross-entropy against gt_idxs, the reverse cross-entropy against the flipped
gt_idxs, and torch.min of the two. -/
noncomputable def trainStepLoss (scores : List (List ℝ)) (g : List ℕ) : ℝ :=
  min (crossEntropyLoss scores g) (crossEntropyLoss scores g.reverse)

/-! ### Evaluation accuracy (generator.py, val, lines 389-403) -/

/-- Number of positions where two equal-length arrays agree
(np.sum of the elementwise equality, generator.py lines 389-390). -/
def countMatches (pred gt : List ℕ) : ℕ :=
  ((pred.zip gt).filter fun p => decide (p.1 = p.2)).length

/-- Per-sample accuracy (generator.py lines 389-392): the larger of the
forward and reversed match counts, divided by the ground-truth length. -/
def sampleAcc (pred gt : List ℕ) : ℚ :=
  ((max (countMatches pred gt) (countMatches pred gt.reverse) : ℕ) : ℚ) /
    (gt.length : ℚ)

/-- The value val returns (generator.py lines 393 and 403): per-sample
accuracies accumulated over the dataset and divided by the dataset size.
A sample is the pair (predicted order, ground-truth order). -/
def valAccuracy (samples : List (List ℕ × List ℕ)) : ℚ :=
  ((samples.map fun s => sampleAcc s.1 s.2).sum) / (samples.length : ℚ)

/-! ### Corpus filtering and sample count (generator.py, GCNDataset.__init__,
lines 81-91, and GCNDataset.__len__, lines 175-176) -/

/-- A corpus row with the two columns the constructor reads for filtering. -/
structure DFRow where
  len : ℕ
  standard : Bool
deriving DecidableEq

/-- The corpus filter of the constructor (generator.py lines 82-84): keep
rows with len between min_len and max_len, both bounds inclusive in the
pandas query, and when the standard column exists additionally keep only
rows with standard true. -/
def filteredCorpus (rows : List DFRow) (hasStandard : Bool) (minLen maxLen : ℕ) :
    List DFRow :=
  let byLen := rows.filter fun r => decide (minLen ≤ r.len) && decide (r.len ≤ maxLen)
  if hasStandard then byLen.filter fun r => r.standard else byLen

/-- The sample count the dataset reports (generator.py lines 86-89 and
175-176): when 0 < n and n is at most the filtered corpus size, n rows are
subsampled and n is kept; otherwise n is overwritten with the filtered
corpus size, which __len__ then returns. -/
def resolvedCount (n : ℤ) (m : ℕ) : ℕ :=
  if 0 < n ∧ n ≤ (m : ℤ) then n.toNat else m

/-! ### Concrete inputs used by witnesses -/

/-- Two 3D points at Euclidean distance exactly 4 (the boundary scenario of
the contact-map claim). -/
noncomputable def caPair : Fin 2 → Fin 3 → ℝ :=
  fun i k => if i = 1 ∧ k = 0 then 4 else 0

/-- A one-sample validation set whose prediction is the exact reverse of the
ground truth (concrete input for the evaluation-accuracy witness). -/
def wSamples : List (List ℕ × List ℕ) :=
  [([1, 0], [0, 1])]

/-! ### Helper lemmas -/

theorem lookup_mem_pairs {l : List (Char × Nat)} {a : Char} {b : Nat}
    (h : l.lookup a = some b) : (a, b) ∈ l := by
  induction l with
  | nil => simp [List.lookup] at h
  | cons p t ih =>
    obtain ⟨k, v⟩ := p
    simp only [List.lookup] at h
    cases hak : a == k with
    | true =>
      rw [hak] at h
      simp only [Option.some.injEq] at h
      exact List.mem_cons.mpr (Or.inl (by rw [eq_of_beq hak, h]))
    | false =>
      rw [hak] at h
      exact List.mem_cons.mpr (Or.inr (ih h))

theorem lookup_eq_none_pairs {l : List (Char × Nat)} {a : Char}
    (h : ∀ p ∈ l, a ≠ p.1) : l.lookup a = none := by
  induction l with
  | nil => rfl
  | cons p t ih =>
    obtain ⟨k, v⟩ := p
    have hk : a ≠ k := h (k, v) (List.mem_cons_self _ _)
    simp only [List.lookup, beq_eq_false_iff_ne.mpr hk]
    exact ih fun q hq => h q (List.mem_cons_of_mem _ hq)

/-! ### C2: forward/reverse minimum training loss -/

/-- C2: for every training sample, the quantity the training step
backpropagates is exactly the minimum of the cross-entropy against the
ground-truth order and the cross-entropy against it reversed, computed from
the same score matrix; it is bounded by each of the two and equals one of
them (so it is the minimum, not a sum or an average). -/
theorem trainStepLoss_is_min (scores : List (List ℝ)) (g : List ℕ) :
    trainStepLoss scores g =
      min (crossEntropyLoss scores g) (crossEntropyLoss scores g.reverse) ∧
    trainStepLoss scores g ≤ crossEntropyLoss scores g ∧
    trainStepLoss scores g ≤ crossEntropyLoss scores g.reverse ∧
    (trainStepLoss scores g = crossEntropyLoss scores g ∨
      trainStepLoss scores g = crossEntropyLoss scores g.reverse) :=
  ⟨rfl, min_le_left _ _, min_le_right _ _, min_choice _ _⟩

/-! ### C5: corpus filtering -/

/-- C5, counterexample to the claim as stated: with min_len 4 and max_len 8,
a standard row whose len equals max_len is kept by the filter, while the
claim says a row with len equal to max_len is excluded. -/
theorem filteredCorpus_keeps_len_eq_max :
    DFRow.mk 8 true ∈ filteredCorpus [DFRow.mk 8 true] true 4 8 := by
  decide

/-- C5, amended: the corpus-backed constructor keeps exactly the rows whose
len lies in the closed interval from min_len to max_len (both endpoints
included), and, when a standard column exists, only rows with standard true;
rows with standard false are kept only when the column is absent. -/
theorem filteredCorpus_mem (rows : List DFRow) (hasStandard : Bool)
    (minLen maxLen : ℕ) (r : DFRow) :
    r ∈ filteredCorpus rows hasStandard minLen maxLen ↔
      r ∈ rows ∧ minLen ≤ r.len ∧ r.len ≤ maxLen ∧
        (hasStandard = true → r.standard = true) := by
  cases hasStandard <;>
    simp [filteredCorpus, List.mem_filter, and_assoc] <;>
    tauto

/-! ### C6: the one-letter encoder -/

/-- C6, counterexample to the claim as stated: the letters V and X share the
encoding 19, while the claim says id 19 is produced by no input letter other
than X. -/
theorem a2id_V_X_collide :
    a2id 'V' = some 19 ∧ a2id 'X' = some 19 := by
  decide

/-- C6, amended: a2id maps the 20 standard letters to the distinct ids 0
through 19 in table order, maps X to 19 so that V and X share id 19, yields
19 only for inputs whose uppercase form is V or X, and fails (lookup error,
modelled as none) on any letter whose uppercase form is not a table key. -/
theorem a2id_spec :
    standardLetters.map a2id = (List.range 20).map some ∧
    (a2id 'X' = some 19 ∧ a2id 'V' = some 19) ∧
    (∀ c : Char, a2id c = some 19 → c.toUpper = 'X' ∨ c.toUpper = 'V') ∧
    (∀ c : Char, (∀ p ∈ a2idTable, c.toUpper ≠ p.1) → a2id c = none) := by
  refine ⟨by decide, ⟨by decide, by decide⟩, ?_, ?_⟩
  · intro c h
    have hmem : (c.toUpper, 19) ∈ a2idTable := lookup_mem_pairs h
    simp only [a2idTable, List.mem_cons, List.not_mem_nil, or_false,
      Prod.mk.injEq] at hmem
    rcases hmem with h' | h' | h' | h' | h' | h' | h' | h' | h' | h' | h' |
      h' | h' | h' | h' | h' | h' | h' | h' | h' | h' <;>
      simp_all
  · intro c h
    exact lookup_eq_none_pairs h

/-! ### C7: decode of encode1 -/

/-- C7, counterexample to the claim as stated: X encodes to 19 and 19
decodes to V, not to the unknown placeholder X. -/
theorem decode_encode_X_is_V :
    a2id 'X' = some 19 ∧ id2a 19 ≠ some 'X' := by
  decide

/-- C7, amended: whenever a letter has an encoding, decoding that encoding
returns the letter normalized to uppercase, except that X (whose id is
shared with V) decodes to V. -/
theorem decode_encode (c : Char) (i : ℕ) (h : a2id c = some i) :
    id2a i = some (if c.toUpper = 'X' then 'V' else c.toUpper) := by
  have hmem : (c.toUpper, i) ∈ a2idTable := lookup_mem_pairs h
  simp only [a2idTable, List.mem_cons, List.not_mem_nil, or_false,
    Prod.mk.injEq] at hmem
  rcases hmem with h' | h' | h' | h' | h' | h' | h' | h' | h' | h' | h' |
    h' | h' | h' | h' | h' | h' | h' | h' | h' | h' <;>
    · obtain ⟨hk, hv⟩ := h'
      subst hv
      rw [hk]
      decide

/-- C7 witness: the lowercase letter a encodes to 0, and the theorem applied
there gives that 0 decodes back to uppercase A. -/
theorem decode_encode_witness :
    id2a 0 = some (if Char.toUpper 'a' = 'X' then 'V' else Char.toUpper 'a') :=
  decode_encode 'a' 0 (by decide)

/-! ### C3: evaluation accuracy -/

theorem countMatches_le_length (pred gt : List ℕ) :
    countMatches pred gt ≤ gt.length :=
  calc countMatches pred gt ≤ (pred.zip gt).length := List.length_filter_le _ _
  _ ≤ gt.length := by rw [List.length_zip]; exact min_le_right _ _

theorem countMatches_self (l : List ℕ) : countMatches l l = l.length := by
  induction l with
  | nil => rfl
  | cons a t ih =>
    simp only [countMatches] at ih ⊢
    rw [List.zip_cons_cons, List.filter_cons]
    simp [ih]

theorem sum_bounds_of_unit (l : List ℚ) (h : ∀ x ∈ l, 0 ≤ x ∧ x ≤ 1) :
    0 ≤ l.sum ∧ l.sum ≤ (l.length : ℚ) := by
  induction l with
  | nil => simp
  | cons a t ih =>
    obtain ⟨ha0, ha1⟩ := h a (List.mem_cons_self _ _)
    obtain ⟨ht0, ht1⟩ := ih fun x hx => h x (List.mem_cons_of_mem _ hx)
    refine ⟨by rw [List.sum_cons]; exact add_nonneg ha0 ht0, ?_⟩
    simp only [List.sum_cons, List.length_cons]
    push_cast
    linarith

theorem sampleAcc_bounds (pred gt : List ℕ) :
    0 ≤ sampleAcc pred gt ∧ sampleAcc pred gt ≤ 1 := by
  constructor
  · exact div_nonneg (Nat.cast_nonneg _) (Nat.cast_nonneg _)
  · rcases Nat.eq_zero_or_pos gt.length with hg | hg
    · unfold sampleAcc
      rw [hg]
      norm_num
    · unfold sampleAcc
      rw [div_le_one (by exact_mod_cast hg)]
      have h1 := countMatches_le_length pred gt
      have h2 := countMatches_le_length pred gt.reverse
      rw [List.length_reverse] at h2
      exact_mod_cast max_le h1 h2

theorem sampleAcc_eq_one (pred gt : List ℕ) (hg : 0 < gt.length)
    (hp : pred = gt ∨ pred = gt.reverse) : sampleAcc pred gt = 1 := by
  have h1 := countMatches_le_length pred gt
  have h2 := countMatches_le_length pred gt.reverse
  rw [List.length_reverse] at h2
  have hmax : max (countMatches pred gt) (countMatches pred gt.reverse) =
      gt.length := by
    rcases hp with hp | hp
    · refine le_antisymm (max_le h1 h2) ?_
      have he : countMatches pred gt = gt.length := by
        rw [hp]; exact countMatches_self gt
      rw [← he]
      exact le_max_left _ _
    · refine le_antisymm (max_le h1 h2) ?_
      have he : countMatches pred gt.reverse = gt.length := by
        rw [hp, countMatches_self, List.length_reverse]
      rw [← he]
      exact le_max_right _ _
  unfold sampleAcc
  rw [hmax]
  exact div_self (Nat.cast_ne_zero.mpr hg.ne')

/-- C3: the evaluation routine returns the arithmetic mean over the samples
of the per-sample accuracy, per-sample accuracy being the larger of the
forward and reversed match counts divided by the ground-truth length; the
returned value lies between 0 and 1, and the per-sample accuracy is exactly
1 when the prediction equals the ground truth or its exact reverse. -/
theorem valAccuracy_spec (samples : List (List ℕ × List ℕ))
    (h : ∀ s ∈ samples, s.1.length = s.2.length ∧ 0 < s.2.length)
    (hne : samples ≠ []) :
    (0 ≤ valAccuracy samples ∧ valAccuracy samples ≤ 1) ∧
    valAccuracy samples * (samples.length : ℚ) =
      (samples.map fun s => sampleAcc s.1 s.2).sum ∧
    (∀ pred gt : List ℕ, 0 < gt.length →
      (pred = gt ∨ pred = gt.reverse) → sampleAcc pred gt = 1) := by
  have hlen : (0 : ℚ) < (samples.length : ℚ) := by
    exact_mod_cast List.length_pos.mpr hne
  have hsum := sum_bounds_of_unit (samples.map fun s => sampleAcc s.1 s.2) ?_
  · refine ⟨⟨div_nonneg hsum.1 (le_of_lt hlen), ?_⟩, ?_, ?_⟩
    · unfold valAccuracy
      rw [div_le_one hlen]
      have := hsum.2
      rwa [List.length_map] at this
    · unfold valAccuracy
      exact div_mul_cancel₀ _ (ne_of_gt hlen)
    · intro pred gt hg hp
      exact sampleAcc_eq_one pred gt hg hp
  · intro x hx
    obtain ⟨s, _, rfl⟩ := List.mem_map.mp hx
    exact sampleAcc_bounds s.1 s.2

/-- C3 witness: on the one-sample set whose prediction is the exact reverse
of the ground truth, the theorem applies and gives the mean bounds. -/
theorem valAccuracy_spec_witness :
    0 ≤ valAccuracy wSamples ∧ valAccuracy wSamples ≤ 1 :=
  (valAccuracy_spec wSamples (by decide) (by decide)).1

/-! ### C8: contact map -/

/-- C8: the contact map thresholds pairwise Euclidean distance strictly
below the cutoff (a pair at distance exactly the cutoff is not adjacent);
with a mask, a pair of masked-in nodes keeps the thresholded value, any pair
of distinct nodes involving a masked-out node is forced False, and the
diagonal entry of a masked-out node is forced True. -/
theorem contact_map_spec {n : ℕ} (ca : Fin n → Fin 3 → ℝ) (mask : Fin n → Bool)
    (cutoff : ℝ) (i j : Fin n) :
    (make_contact_map_nomask ca cutoff i j ↔ dist_entry ca i j < cutoff) ∧
    (dist_entry ca i j = cutoff → ¬ make_contact_map_nomask ca cutoff i j) ∧
    (mask i = true → mask j = true →
      (make_contact_map ca mask cutoff i j ↔ dist_entry ca i j < cutoff)) ∧
    (i ≠ j → (mask i = false ∨ mask j = false) →
      ¬ make_contact_map ca mask cutoff i j) ∧
    (mask i = false → make_contact_map ca mask cutoff i i) := by
  refine ⟨Iff.rfl, ?_, ?_, ?_, ?_⟩
  · intro h
    simp only [make_contact_map_nomask, cont_entry, h]
    exact lt_irrefl _
  · intro hi hj
    simp [make_contact_map, set_diag_unmasked, mask_cols, mask_rows,
      cont_entry, hi, hj]
  · intro hne hm
    rcases hm with hm | hm <;>
      simp [make_contact_map, set_diag_unmasked, mask_cols, mask_rows,
        cont_entry, hm, hne]
  · intro hi
    simp [make_contact_map, set_diag_unmasked, hi]

/-- C8 witness: two points at Euclidean distance exactly 4 are not adjacent
under cutoff 4 (the boundary is excluded). -/
theorem contact_map_spec_witness :
    dist_entry caPair 0 1 = 4 ∧ ¬ make_contact_map_nomask caPair (4 : ℝ) 0 1 := by
  have hd : dist_entry caPair 0 1 = 4 := by
    have h16 : (∑ k : Fin 3, (caPair 1 k - caPair 0 k) ^ 2) = 16 := by
      rw [Fin.sum_univ_three,
        show caPair 1 0 = 4 from rfl, show caPair 0 0 = 0 from rfl,
        show caPair 1 1 = 0 from rfl, show caPair 0 1 = 0 from rfl,
        show caPair 1 2 = 0 from rfl, show caPair 0 2 = 0 from rfl]
      norm_num
    unfold dist_entry
    rw [h16, show (16 : ℝ) = 4 ^ 2 by norm_num, Real.sqrt_sq (by norm_num)]
  exact ⟨hd, (contact_map_spec caPair (fun _ => true) 4 0 1).2.1 hd⟩

/-! ### C9 and C10: sample-count resolution -/

/-- C9: when the requested sample count exceeds the filtered corpus size,
the dataset length is the corpus size, not the request; a filter yielding
zero rows gives a zero-length dataset whose index range is empty, so
iteration is a no-op. -/
theorem resolvedCount_clamps (n : ℤ) (m : ℕ) (hm : (m : ℤ) < n) :
    resolvedCount n m = m ∧ resolvedCount n 0 = 0 ∧
      List.range (resolvedCount n 0) = [] := by
  refine ⟨?_, ?_, ?_⟩
  · unfold resolvedCount
    rw [if_neg]
    rintro ⟨-, hle⟩
    omega
  · unfold resolvedCount
    rw [if_neg]
    rintro ⟨hpos, hle⟩
    omega
  · unfold resolvedCount
    rw [if_neg]
    · rfl
    · rintro ⟨hpos, hle⟩
      omega

/-- C9 witness: requesting 5 samples from a 3-row filtered corpus yields 3. -/
theorem resolvedCount_clamps_witness :
    resolvedCount 5 3 = 3 ∧ resolvedCount 5 0 = 0 ∧
      List.range (resolvedCount 5 0) = [] :=
  resolvedCount_clamps 5 3 (by decide)

/-- C10: a non-positive requested sample count skips the subsampling branch,
so the dataset length is the full filtered corpus size. -/
theorem resolvedCount_nonpos (n : ℤ) (m : ℕ) (hn : n ≤ 0) :
    resolvedCount n m = m := by
  unfold resolvedCount
  rw [if_neg]
  rintro ⟨hpos, -⟩
  omega

/-- C10 witness: requesting 0 samples from a 7-row corpus yields 7, and
requesting -2 samples from a 5-row corpus yields 5. -/
theorem resolvedCount_nonpos_witness :
    resolvedCount 0 7 = 7 ∧ resolvedCount (-2) 5 = 5 :=
  ⟨resolvedCount_nonpos 0 7 (by decide), resolvedCount_nonpos (-2) 5 (by decide)⟩

/-! ### C1 and C4: the permutation buffer and the ground-truth order -/

theorem map_getD_range (xs : List ℕ) :
    (List.range xs.length).map (fun i => xs.getD i 0) = xs := by
  induction xs with
  | nil => rfl
  | cons a t ih =>
    rw [List.length_cons, List.range_succ_eq_map, List.map_cons, List.map_map]
    have hc : ((fun i => (a :: t).getD i 0) ∘ Nat.succ) = fun i => t.getD i 0 := by
      funext i
      simp [Function.comp, List.getD_cons_succ]
    rw [hc, ih]
    rfl

theorem map_getD_perm (xs : List ℕ) {p : List ℕ}
    (hp : p.Perm (List.range xs.length)) :
    (p.map fun i => xs.getD i 0).Perm xs := by
  have h := hp.map fun i => xs.getD i 0
  rwa [map_getD_range] at h

theorem getD_map_at (f : ℕ → ℕ) (l : List ℕ) (p : ℕ) (hp : p < l.length) :
    (l.map f).getD p 0 = f (l.getD p 0) := by
  rw [List.getD_eq_getElem _ _ (by rw [List.length_map]; exact hp),
    List.getElem_map, List.getD_eq_getElem _ _ hp]

theorem argsort_take_core (seqLen : ℕ) (dummy xs : List ℕ)
    (hdn : dummy.Nodup) (hdge : ∀ d ∈ dummy, seqLen ≤ d)
    (hperm : xs.Perm (List.range seqLen ++ dummy)) :
    ((argsort xs).take seqLen).length = seqLen ∧
    (∀ j, j < seqLen → xs.getD (((argsort xs).take seqLen).getD j 0) 0 = j) ∧
    ((argsort xs).take seqLen).Perm
      ((List.range xs.length).filter fun p => decide (xs.getD p 0 < seqLen)) := by
  haveI : IsTotal ℕ (fun i j => xs.getD i 0 ≤ xs.getD j 0) :=
    ⟨fun a b => le_total _ _⟩
  haveI : IsTrans ℕ (fun i j => xs.getD i 0 ≤ xs.getD j 0) :=
    ⟨fun a b c hab hbc => le_trans hab hbc⟩
  have hA_perm : (argsort xs).Perm (List.range xs.length) :=
    List.perm_insertionSort _ _
  have hA_len : (argsort xs).length = xs.length := by
    rw [hA_perm.length_eq, List.length_range]
  have hA_sorted : List.Sorted (fun i j => xs.getD i 0 ≤ xs.getD j 0) (argsort xs) :=
    List.sorted_insertionSort _ _
  have hmap_sorted :
      List.Sorted (· ≤ ·) ((argsort xs).map fun p => xs.getD p 0) :=
    List.pairwise_map.mpr hA_sorted
  have hmap_perm : ((argsort xs).map fun p => xs.getD p 0).Perm xs :=
    map_getD_perm xs hA_perm
  have hdS_perm : (List.insertionSort (· ≤ ·) dummy).Perm dummy :=
    List.perm_insertionSort _ _
  have hdS_sorted : List.Sorted (· ≤ ·) (List.insertionSort (· ≤ ·) dummy) :=
    List.sorted_insertionSort _ _
  have htarget_sorted :
      List.Sorted (· ≤ ·) (List.range seqLen ++ List.insertionSort (· ≤ ·) dummy) := by
    rw [List.Sorted, List.pairwise_append]
    refine ⟨(List.pairwise_lt_range seqLen).imp fun h => le_of_lt h, hdS_sorted, ?_⟩
    intro a ha b hb
    have ha' : a < seqLen := List.mem_range.mp ha
    have hb' : seqLen ≤ b := hdge b (hdS_perm.mem_iff.mp hb)
    omega
  have hperm2 : ((argsort xs).map fun p => xs.getD p 0).Perm
      (List.range seqLen ++ List.insertionSort (· ≤ ·) dummy) :=
    hmap_perm.trans (hperm.trans (List.Perm.append_left _ hdS_perm.symm))
  have heq : (argsort xs).map (fun p => xs.getD p 0) =
      List.range seqLen ++ List.insertionSort (· ≤ ·) dummy :=
    List.eq_of_perm_of_sorted hperm2 hmap_sorted htarget_sorted
  have hxs_len : xs.length = seqLen + dummy.length := by
    rw [hperm.length_eq, List.length_append, List.length_range]
  have hseq_le : seqLen ≤ xs.length := by omega
  have hg_len : ((argsort xs).take seqLen).length = seqLen := by
    rw [List.length_take, hA_len]
    exact min_eq_left hseq_le
  have hmapg : ((argsort xs).take seqLen).map (fun p => xs.getD p 0) =
      List.range seqLen := by
    rw [List.map_take, heq]
    exact List.take_left' (List.length_range seqLen)
  refine ⟨hg_len, ?_, ?_⟩
  · intro j hj
    have hjlen : j < ((argsort xs).take seqLen).length := by
      rw [hg_len]; exact hj
    have hjm : j < (((argsort xs).take seqLen).map fun p => xs.getD p 0).length := by
      rw [List.length_map]; exact hjlen
    have hxval := getD_map_at (fun p => xs.getD p 0) ((argsort xs).take seqLen) j hjlen
    have hrange : (((argsort xs).take seqLen).map fun p => xs.getD p 0).getD j 0 = j := by
      rw [hmapg, List.getD_eq_getElem _ _ (by rw [List.length_range]; exact hj)]
      exact List.getElem_range _ _
    exact hxval.symm.trans hrange
  · have hA_nodup : (argsort xs).Nodup :=
      (hA_perm.nodup_iff).mpr (List.nodup_range _)
    have hg_nodup : ((argsort xs).take seqLen).Nodup :=
      List.Nodup.sublist (List.take_sublist _ _) hA_nodup
    have hfilter_nodup :
        ((List.range xs.length).filter fun p => decide (xs.getD p 0 < seqLen)).Nodup :=
      List.Nodup.filter _ (List.nodup_range _)
    have hsub1 : ((argsort xs).take seqLen) ⊆
        (List.range xs.length).filter fun p => decide (xs.getD p 0 < seqLen) := by
      intro x hx
      have hxA : x ∈ argsort xs := List.take_subset _ _ hx
      have hxrange : x ∈ List.range xs.length := hA_perm.mem_iff.mp hxA
      have hkx : xs.getD x 0 ∈ List.range seqLen := by
        rw [← hmapg]
        exact List.mem_map_of_mem _ hx
      rw [List.mem_filter]
      exact ⟨hxrange, decide_eq_true (List.mem_range.mp hkx)⟩
    have hsub2 : ((List.range xs.length).filter fun p => decide (xs.getD p 0 < seqLen)) ⊆
        (argsort xs).take seqLen := by
      intro x hx
      rw [List.mem_filter] at hx
      obtain ⟨hxr, hxk⟩ := hx
      have hxk' : xs.getD x 0 < seqLen := of_decide_eq_true hxk
      have hxA : x ∈ argsort xs := hA_perm.mem_iff.mpr hxr
      rw [← List.take_append_drop seqLen (argsort xs)] at hxA
      rcases List.mem_append.mp hxA with hmem | hmem
      · exact hmem
      · exfalso
        have hkd : xs.getD x 0 ∈ ((argsort xs).drop seqLen).map fun p => xs.getD p 0 :=
          List.mem_map_of_mem _ hmem
        rw [List.map_drop, heq,
          List.drop_left' (List.length_range seqLen)] at hkd
        have hmemd : xs.getD x 0 ∈ dummy := hdS_perm.subset hkd
        exact absurd hxk' (not_lt.mpr (hdge _ hmemd))
    exact (hg_nodup.subperm hsub1).antisymm (hfilter_nodup.subperm hsub2)

/-- C1: the ground-truth order array of a built sample has length exactly
seq_len, is a permutation of the physical buffer positions of the real
nodes (no duplicates, no padding positions), and lists the physical
position of each real node sorted by its logical index, i.e. it inverts
the slot permutation on real nodes; in the corpus branch without padding
(buffer equal to the identity index array) it is the identity. -/
theorem ground_truth_order_spec (seqLen M maxLen : ℕ)
    (dummyPerm randPerm : List ℕ)
    (hsm : seqLen ≤ maxLen) (hmM : maxLen ≤ M)
    (hd : dummyPerm.Perm (List.range' maxLen (2 * M - maxLen)))
    (hr : randPerm.Perm (List.range M)) :
    (my_gt_idxs (my_idxs seqLen M dummyPerm randPerm) seqLen).length = seqLen ∧
    (my_gt_idxs (my_idxs seqLen M dummyPerm randPerm) seqLen).Perm
      ((List.range M).filter fun p =>
        decide ((my_idxs seqLen M dummyPerm randPerm).getD p 0 < seqLen)) ∧
    (∀ j, j < seqLen →
      (my_idxs seqLen M dummyPerm randPerm).getD
        ((my_gt_idxs (my_idxs seqLen M dummyPerm randPerm) seqLen).getD j 0) 0 = j) ∧
    my_gt_idxs (List.range seqLen) seqLen = List.range seqLen := by
  have hdperm_len : dummyPerm.length = 2 * M - maxLen := by
    rw [hd.length_eq, List.length_range']
  have hdlen : (my_dummy_idxs seqLen M dummyPerm).length = M - seqLen := by
    rw [my_dummy_idxs, List.length_take, hdperm_len]
    exact min_eq_left (by omega)
  have hdnodup : (my_dummy_idxs seqLen M dummyPerm).Nodup :=
    List.Nodup.sublist (List.take_sublist _ _)
      (hd.nodup_iff.mpr (List.nodup_range' _ _))
  have hdge : ∀ d ∈ my_dummy_idxs seqLen M dummyPerm, seqLen ≤ d := by
    intro d hdm
    have hmem : d ∈ List.range' maxLen (2 * M - maxLen) :=
      hd.subset (List.take_subset _ _ hdm)
    have h' := List.mem_range'_1.mp hmem
    omega
  have hall_len :
      (List.range seqLen ++ my_dummy_idxs seqLen M dummyPerm).length = M := by
    rw [List.length_append, List.length_range, hdlen]
    omega
  have hxsperm : (my_idxs seqLen M dummyPerm randPerm).Perm
      (List.range seqLen ++ my_dummy_idxs seqLen M dummyPerm) := by
    unfold my_idxs
    apply map_getD_perm
    rw [hall_len]
    exact hr
  have hxs_len : (my_idxs seqLen M dummyPerm randPerm).length = M := by
    unfold my_idxs
    rw [List.length_map, hr.length_eq, List.length_range]
  obtain ⟨hc1, hc2, hc3⟩ :=
    argsort_take_core seqLen (my_dummy_idxs seqLen M dummyPerm)
      (my_idxs seqLen M dummyPerm randPerm) hdnodup hdge hxsperm
  refine ⟨hc1, ?_, hc2, ?_⟩
  · rw [hxs_len] at hc3
    exact hc3
  · haveI : IsTotal ℕ
        (fun i j => (List.range seqLen).getD i 0 ≤ (List.range seqLen).getD j 0) :=
      ⟨fun a b => le_total _ _⟩
    haveI : IsTrans ℕ
        (fun i j => (List.range seqLen).getD i 0 ≤ (List.range seqLen).getD j 0) :=
      ⟨fun a b c hab hbc => le_trans hab hbc⟩
    have hsorted : List.Sorted
        (fun i j => (List.range seqLen).getD i 0 ≤ (List.range seqLen).getD j 0)
        (List.range seqLen) := by
      rw [List.Sorted, List.pairwise_iff_getElem]
      intro i j hi hj hij
      rw [List.length_range] at hi hj
      rw [List.getElem_range, List.getElem_range,
        List.getD_eq_getElem _ _ (by rw [List.length_range]; exact hi),
        List.getD_eq_getElem _ _ (by rw [List.length_range]; exact hj),
        List.getElem_range, List.getElem_range]
      exact le_of_lt hij
    unfold my_gt_idxs argsort
    rw [List.length_range, List.Sorted.insertionSort_eq hsorted, List.take_range,
      min_self]

/-- C1 witness: a concrete sample with seq_len 2, buffer capacity 3 and
max_len 2, built from concrete permutation draws, has a length-2
ground-truth order. -/
theorem ground_truth_order_spec_witness :
    (my_gt_idxs (my_idxs 2 3 [5, 2, 3, 4] [2, 0, 1]) 2).length = 2 :=
  (ground_truth_order_spec 2 3 2 [5, 2, 3, 4] [2, 0, 1] (by decide) (by decide)
    (by decide) (by decide)).1

/-- C4: with buffer capacity M above seq_len, the builder takes the
M - seq_len padding ids from a permutation of the integer range from
max_len to 2M (of size at least M, disjoint from the real ids), so they
are distinct and outside the real-id range; the id buffer and the residue
buffer both have exactly M slots and both are scrambled by the one shared
random permutation, whose inverse on real nodes is the ground-truth
order. -/
theorem padding_policy_spec (seqLen M maxLen : ℕ)
    (dummyPerm randPerm realSeq padSeq : List ℕ)
    (hsm : seqLen ≤ maxLen) (hmM : maxLen ≤ M)
    (hd : dummyPerm.Perm (List.range' maxLen (2 * M - maxLen)))
    (hr : randPerm.Perm (List.range M))
    (hrs : realSeq.length = seqLen) (hps : padSeq.length = M - seqLen) :
    ((my_dummy_idxs seqLen M dummyPerm).length = M - seqLen ∧
      (my_dummy_idxs seqLen M dummyPerm).Nodup ∧
      (∀ d ∈ my_dummy_idxs seqLen M dummyPerm,
        maxLen ≤ d ∧ d < 2 * M ∧ ¬ d < seqLen) ∧
      M ≤ (List.range' maxLen (2 * M - maxLen)).length) ∧
    ((my_idxs seqLen M dummyPerm randPerm).length = M ∧
      (my_seq_buf realSeq padSeq randPerm).length = M) ∧
    (∀ p, p < M →
      (my_idxs seqLen M dummyPerm randPerm).getD p 0 =
        (List.range seqLen ++ my_dummy_idxs seqLen M dummyPerm).getD
          (randPerm.getD p 0) 0 ∧
      (my_seq_buf realSeq padSeq randPerm).getD p 0 =
        (realSeq ++ padSeq).getD (randPerm.getD p 0) 0) ∧
    (∀ j, j < seqLen →
      (my_idxs seqLen M dummyPerm randPerm).getD
        ((my_gt_idxs (my_idxs seqLen M dummyPerm randPerm) seqLen).getD j 0) 0 = j) := by
  have hdperm_len : dummyPerm.length = 2 * M - maxLen := by
    rw [hd.length_eq, List.length_range']
  have hdlen : (my_dummy_idxs seqLen M dummyPerm).length = M - seqLen := by
    rw [my_dummy_idxs, List.length_take, hdperm_len]
    exact min_eq_left (by omega)
  have hdnodup : (my_dummy_idxs seqLen M dummyPerm).Nodup :=
    List.Nodup.sublist (List.take_sublist _ _)
      (hd.nodup_iff.mpr (List.nodup_range' _ _))
  have hdrange : ∀ d ∈ my_dummy_idxs seqLen M dummyPerm,
      maxLen ≤ d ∧ d < 2 * M ∧ ¬ d < seqLen := by
    intro d hdm
    have hmem : d ∈ List.range' maxLen (2 * M - maxLen) :=
      hd.subset (List.take_subset _ _ hdm)
    have h' := List.mem_range'_1.mp hmem
    omega
  have hdge : ∀ d ∈ my_dummy_idxs seqLen M dummyPerm, seqLen ≤ d := by
    intro d hdm
    have := hdrange d hdm
    omega
  have hrlen : randPerm.length = M := by
    rw [hr.length_eq, List.length_range]
  have hall_len :
      (List.range seqLen ++ my_dummy_idxs seqLen M dummyPerm).length = M := by
    rw [List.length_append, List.length_range, hdlen]
    omega
  have hxsperm : (my_idxs seqLen M dummyPerm randPerm).Perm
      (List.range seqLen ++ my_dummy_idxs seqLen M dummyPerm) := by
    unfold my_idxs
    apply map_getD_perm
    rw [hall_len]
    exact hr
  refine ⟨⟨hdlen, hdnodup, hdrange, by rw [List.length_range']; omega⟩,
    ⟨?_, ?_⟩, ?_, ?_⟩
  · unfold my_idxs
    rw [List.length_map, hrlen]
  · unfold my_seq_buf
    rw [List.length_map, hrlen]
  · intro p hp
    have hp' : p < randPerm.length := by rw [hrlen]; exact hp
    exact ⟨getD_map_at _ randPerm p hp', getD_map_at _ randPerm p hp'⟩
  · exact (argsort_take_core seqLen (my_dummy_idxs seqLen M dummyPerm)
      (my_idxs seqLen M dummyPerm randPerm) hdnodup hdge hxsperm).2.1

/-- C4 witness: a concrete sample with seq_len 2 and buffer capacity 3
yields id and residue buffers of exactly 3 slots. -/
theorem padding_policy_spec_witness :
    (my_idxs 2 3 [5, 2, 3, 4] [2, 0, 1]).length = 3 ∧
    (my_seq_buf [7, 9] [4] [2, 0, 1]).length = 3 :=
  (padding_policy_spec 2 3 2 [5, 2, 3, 4] [2, 0, 1] [7, 9] [4] (by decide)
    (by decide) (by decide) (by decide) (by decide) (by decide)).2.1

end StructGen
